import Mathlib

/-!
Shallow embedding of the image-processing core of `src/services/geminiService.ts`
(the `useImageProcessor` hook and the API wrappers), together with theorems
about it.

Two image models are used, matching how the code touches pixels:

* a continuous canvas model (`CImg`, pixel functions over rational
  coordinates) for the operations that only issue geometric draw calls at
  possibly fractional coordinates (`mixImages`, `letterboxImage`);
* a discrete raster model (`Img`, `RGBA` values on integer coordinates) for
  the operations that read or permute the integer pixel grid (`autoCrop`
  via `getImageData`, `flipImage` whose canvas transform is integral).

JavaScript numbers are modelled as rationals (`ℚ`); the code performs no
operation on them that distinguishes floats from exact arithmetic at the
scales of interest.
-/

/-- An abstract paint value stored in one canvas pixel. -/
abbrev Color := ℕ

/-- Continuous image: dimensions and a pixel function over rational
coordinates.  Models an `HTMLImageElement` / canvas for geometric draw
calls. -/
structure CImg where
  width : ℚ
  height : ℚ
  pix : ℚ → ℚ → Color

/-- `ctx.fillRect(x, y, w, h)` with fill style `col`: repaint the half-open
rectangle, keep the rest. -/
def fillRect (canvas : ℚ → ℚ → Color) (x y w h : ℚ) (col : Color) :
    ℚ → ℚ → Color :=
  fun px py =>
    if x ≤ px ∧ px < x + w ∧ y ≤ py ∧ py < y + h then col else canvas px py

/-- `ctx.drawImage(img, dx, dy, dw, dh)`: paint `img` scaled onto the
half-open destination rectangle, sampling the source at the uniformly
rescaled coordinates; pixels outside the rectangle are untouched. -/
def drawImageAt (canvas : ℚ → ℚ → Color) (img : CImg) (dx dy dw dh : ℚ) :
    ℚ → ℚ → Color :=
  fun px py =>
    if dx ≤ px ∧ px < dx + dw ∧ dy ≤ py ∧ py < dy + dh then
      img.pix ((px - dx) * img.width / dw) ((py - dy) * img.height / dh)
    else canvas px py

/-- The grid of cell images handed to `mixImages` (`gridImages[r][c]`),
after `loadImage` has resolved each data-URL; `none` is an empty cell. -/
abbrev Grid := ℕ → ℕ → Option CImg

/-- `dx` of the cell in column `c`: `padding + c * (cellWidth + padding)`.
The same formula gives `dy` for row `r` with `cellHeight`. -/
def cellPos (padding cell : ℚ) (c : ℕ) : ℚ :=
  padding + c * (cell + padding)

/-- The body of the double loop of `mixImages` for one cell `(r, c)`:
draw the cell's image (when present) at the padded cell rectangle. -/
def drawCell (grid : Grid) (padding cw ch : ℚ) (canvas : ℚ → ℚ → Color)
    (rc : ℕ × ℕ) : ℚ → ℚ → Color :=
  match grid rc.1 rc.2 with
  | none => canvas
  | some img =>
      drawImageAt canvas img (cellPos padding cw rc.2) (cellPos padding ch rc.1) cw ch

/-- The row-major list of cell indices `(r, c)` visited by the double loop
of `mixImages`. -/
def cellPairs (rows cols : ℕ) : List (ℕ × ℕ) :=
  (List.range rows).product (List.range cols)

/-- The canvas of `mixImages` after the background fill and the draws of
`order` (the cells in the order their load promises resolve). -/
def mixRender (grid : Grid) (padding cw ch finalWidth finalHeight : ℚ)
    (bg : Color) (order : List (ℕ × ℕ)) : ℚ → ℚ → Color :=
  order.foldl (drawCell grid padding cw ch)
    (fillRect (fun _ _ => 0) 0 0 finalWidth finalHeight bg)

/-- `mixImages` from `useImageProcessor`: fill the `finalWidth × finalHeight`
canvas with the background color; if the padding leaves no content space,
return the solid background; otherwise draw every non-empty cell scaled to
`cellWidth × cellHeight` at its padded position. -/
def mixImages (grid : Grid) (cols rows : ℕ)
    (finalWidth finalHeight padding : ℚ) (bg : Color) : CImg :=
  let contentWidth := finalWidth - padding * (cols + 1)
  let contentHeight := finalHeight - padding * (rows + 1)
  if contentWidth ≤ 0 ∨ contentHeight ≤ 0 then
    ⟨finalWidth, finalHeight,
      fillRect (fun _ _ => 0) 0 0 finalWidth finalHeight bg⟩
  else
    let cellWidth := contentWidth / cols
    let cellHeight := contentHeight / rows
    ⟨finalWidth, finalHeight,
      mixRender grid padding cellWidth cellHeight finalWidth finalHeight bg
        (cellPairs rows cols)⟩

/-- The point `(px, py)` lies in the destination rectangle of cell `rc`. -/
def inCellRect (padding cw ch : ℚ) (rc : ℕ × ℕ) (px py : ℚ) : Prop :=
  cellPos padding cw rc.2 ≤ px ∧ px < cellPos padding cw rc.2 + cw ∧
    cellPos padding ch rc.1 ≤ py ∧ py < cellPos padding ch rc.1 + ch

/-- `canvasWidth` of `letterboxImage`: the source width, widened to
`img.height * targetAspectRatio` when the source is not wider than the
target ratio. -/
def letterboxCanvasWidth (img : CImg) (targetAspectRatio : ℚ) : ℚ :=
  if img.width / img.height > targetAspectRatio then img.width
  else img.height * targetAspectRatio

/-- `canvasHeight` of `letterboxImage`: the source height, heightened to
`img.width / targetAspectRatio` when the source is wider than the target
ratio. -/
def letterboxCanvasHeight (img : CImg) (targetAspectRatio : ℚ) : ℚ :=
  if img.width / img.height > targetAspectRatio then
    img.width / targetAspectRatio
  else img.height

/-- `scale = Math.min(1500 / canvasWidth, 1500 / canvasHeight, 1)`. -/
def letterboxScale (img : CImg) (targetAspectRatio : ℚ) : ℚ :=
  min (min (1500 / letterboxCanvasWidth img targetAspectRatio)
      (1500 / letterboxCanvasHeight img targetAspectRatio)) 1

/-- `offsetX = (canvas.width - scaledImgWidth) / 2`. -/
def letterboxOffsetX (img : CImg) (targetAspectRatio : ℚ) : ℚ :=
  (letterboxCanvasWidth img targetAspectRatio * letterboxScale img targetAspectRatio
    - img.width * letterboxScale img targetAspectRatio) / 2

/-- `offsetY = (canvas.height - scaledImgHeight) / 2`. -/
def letterboxOffsetY (img : CImg) (targetAspectRatio : ℚ) : ℚ :=
  (letterboxCanvasHeight img targetAspectRatio * letterboxScale img targetAspectRatio
    - img.height * letterboxScale img targetAspectRatio) / 2

/-- `letterboxImage` from `useImageProcessor`: a canvas of the target
aspect ratio capped at 1500 on each side, filled with the background color,
with the source drawn centered at the uniform scale `letterboxScale`. -/
def letterboxImage (img : CImg) (targetAspectRatio : ℚ) (bg : Color) : CImg :=
  ⟨letterboxCanvasWidth img targetAspectRatio * letterboxScale img targetAspectRatio,
    letterboxCanvasHeight img targetAspectRatio * letterboxScale img targetAspectRatio,
    drawImageAt
      (fillRect (fun _ _ => 0) 0 0
        (letterboxCanvasWidth img targetAspectRatio * letterboxScale img targetAspectRatio)
        (letterboxCanvasHeight img targetAspectRatio * letterboxScale img targetAspectRatio)
        bg)
      img (letterboxOffsetX img targetAspectRatio) (letterboxOffsetY img targetAspectRatio)
      (img.width * letterboxScale img targetAspectRatio)
      (img.height * letterboxScale img targetAspectRatio)⟩

/-- An RGB color, as produced by `hexToRgb` from a hex string. -/
structure RGB where
  r : ℕ
  g : ℕ
  b : ℕ

/-- One entry of `ctx.getImageData(...).data`: the four channel values of
a raster pixel. -/
structure RGBA where
  r : ℕ
  g : ℕ
  b : ℕ
  a : ℕ

/-- Discrete raster image: integer dimensions and per-pixel channel data,
as read back through `getImageData`. -/
structure Img where
  width : ℕ
  height : ℕ
  pix : ℕ → ℕ → RGBA

/-- The squared Euclidean RGB distance
`(r − cropColor.r)² + (g − cropColor.g)² + (b − cropColor.b)²`. -/
def colorDistSq (c : RGB) (p : RGBA) : ℤ :=
  ((p.r : ℤ) - c.r) ^ 2 + ((p.g : ℤ) - c.g) ^ 2 + ((p.b : ℤ) - c.b) ^ 2

/-- Decides `Math.sqrt d2 > t` for a nonnegative radicand without leaving
the rationals: a negative `t` is always exceeded by the (nonnegative)
square root, and for `0 ≤ t` the comparison squares both sides. -/
def sqrtGt (d2 : ℤ) (t : ℚ) : Bool :=
  decide (t < 0) || decide (t * t < (d2 : ℚ))

/-- The content test of `autoCrop` on one pixel: with a crop color,
`distance > tolerance && a > 0` (the square-root comparison decided by
`sqrtGt`); without one, `a > 0`. -/
def isContent (cropColor : Option RGB) (tolerance : ℚ) (p : RGBA) : Bool :=
  match cropColor with
  | some cc => sqrtGt (colorDistSq cc p) tolerance && decide (0 < p.a)
  | none => decide (0 < p.a)

/-- Modelled from the claim's wording, for comparison with the code's
`isContent`: alpha greater than 0 and, when a crop color is given, the
Euclidean RGB distance (a real square root) strictly exceeding the
tolerance. -/
def specIsContent (cropColor : Option RGB) (tolerance : ℚ) (p : RGBA) : Prop :=
  match cropColor with
  | some cc => (tolerance : ℝ) < Real.sqrt ((colorDistSq cc p : ℤ) : ℝ) ∧ 0 < p.a
  | none => 0 < p.a

/-- The four scan variables of `autoCrop`'s pixel loop. -/
structure ScanState where
  minX : ℤ
  minY : ℤ
  maxX : ℤ
  maxY : ℤ

/-- One iteration of the loop body at pixel `(x, y) = (yx.2, yx.1)`:
content pixels shrink the minima and grow the maxima. -/
def scanStep (cropColor : Option RGB) (tolerance : ℚ) (img : Img)
    (s : ScanState) (yx : ℕ × ℕ) : ScanState :=
  if isContent cropColor tolerance (img.pix yx.2 yx.1) then
    ⟨min s.minX yx.2, min s.minY yx.1, max s.maxX yx.2, max s.maxY yx.1⟩
  else s

/-- The coordinates `(y, x)` visited by the scan, `y` in the outer loop. -/
def scanPairs (img : Img) : List (ℕ × ℕ) :=
  (List.range img.height).product (List.range img.width)

/-- The scan of `autoCrop`: fold the loop body over all pixels starting
from `minX = width, minY = height, maxX = −1, maxY = −1`. -/
def scanBBox (cropColor : Option RGB) (tolerance : ℚ) (img : Img) : ScanState :=
  (scanPairs img).foldl (scanStep cropColor tolerance img)
    ⟨img.width, img.height, -1, -1⟩

/-- The two exits of `autoCrop`: the input data-URL returned as-is, or a
newly encoded cropped image. -/
inductive CropResult where
  | original
  | cropped (img : Img)

/-- `autoCrop` from `useImageProcessor`: scan for the content bounding box;
with no content pixel (`maxX === -1`) return the input unchanged, else copy
the `maxX − minX + 1` by `maxY − minY + 1` sub-rectangle at
`(minX, minY)`. -/
def autoCrop (img : Img) (cropColor : Option RGB) (tolerance : ℚ) : CropResult :=
  let s := scanBBox cropColor tolerance img
  if s.maxX = -1 then .original
  else
    .cropped ⟨(s.maxX - s.minX + 1).toNat, (s.maxY - s.minY + 1).toNat,
      fun x y => img.pix (s.minX.toNat + x) (s.minY.toNat + y)⟩

/-- The flip directions of `flipImage`. -/
inductive FlipDir where
  | horizontal
  | vertical

/-- `flipImage` from `useImageProcessor`: the canvas transform
`translate(width, 0); scale(-1, 1)` (resp. `translate(0, height);
scale(1, -1)`) maps raster column `x` to `width − 1 − x` (resp. row `y` to
`height − 1 − y`), dimensions unchanged. -/
def flipImage (img : Img) (d : FlipDir) : Img :=
  match d with
  | .horizontal => ⟨img.width, img.height, fun x y => img.pix (img.width - 1 - x) y⟩
  | .vertical => ⟨img.width, img.height, fun x y => img.pix x (img.height - 1 - y)⟩

/-- The x-coordinates (as integers) of the content pixels among the
scanned coordinates `l`. -/
def contentXs (cropColor : Option RGB) (tolerance : ℚ) (img : Img)
    (l : List (ℕ × ℕ)) : List ℤ :=
  (l.filter (fun p => isContent cropColor tolerance (img.pix p.2 p.1))).map
    (fun p => (p.2 : ℤ))

/-- The y-coordinates (as integers) of the content pixels among the
scanned coordinates `l`. -/
def contentYs (cropColor : Option RGB) (tolerance : ℚ) (img : Img)
    (l : List (ℕ × ℕ)) : List ℤ :=
  (l.filter (fun p => isContent cropColor tolerance (img.pix p.2 p.1))).map
    (fun p => (p.1 : ℤ))

/-- The pixel `(x, y)` of the image is in range and classified as content. -/
def contentAt (img : Img) (cropColor : Option RGB) (tolerance : ℚ)
    (x y : ℕ) : Prop :=
  x < img.width ∧ y < img.height ∧
    isContent cropColor tolerance (img.pix x y) = true

/-- The crop box of the manual-crop dialog, in image coordinates. -/
structure Box where
  x : ℚ
  y : ℚ
  width : ℚ
  height : ℚ

/-- The interaction recorded on pointer-down: a move of the whole box, or a
resize by a handle described by which edges it touches (`l`, `r`, `t`,
`b`; corners touch two). -/
inductive DragKind where
  | move
  | resize (l r t b : Bool)

/-- The unclamped box update of `handleInteractionMove`: a move shifts the
box by the (scaled) pointer delta; a resize moves each edge named by the
handle, always measuring from `startBox`. -/
def applyDrag (kind : DragKind) (startBox : Box) (deltaX deltaY : ℚ) : Box :=
  match kind with
  | .move => { startBox with x := startBox.x + deltaX, y := startBox.y + deltaY }
  | .resize l r t b =>
      let b1 :=
        if l then
          { startBox with x := startBox.x + deltaX, width := startBox.width - deltaX }
        else startBox
      let b2 := if r then { b1 with width := startBox.width + deltaX } else b1
      let b3 :=
        if t then
          { b2 with y := startBox.y + deltaY, height := startBox.height - deltaY }
        else b2
      if b then { b3 with height := startBox.height + deltaY } else b3

/-- The clamping tail of `handleInteractionMove`: fold a negative width or
height over its origin and take the absolute value, clamp the origin into
`[0, size − extent]`, then clamp the extent to the remaining space. -/
def clampBox (nb : Box) (imgW imgH : ℚ) : Box :=
  let b1 :=
    if nb.width < 0 then
      { nb with x := nb.x + nb.width, width := -nb.width }
    else nb
  let b2 :=
    if b1.height < 0 then
      { b1 with y := b1.y + b1.height, height := -b1.height }
    else b1
  let x2 := max 0 (min b2.x (imgW - b2.width))
  let y2 := max 0 (min b2.y (imgH - b2.height))
  ⟨x2, y2, min b2.width (imgW - x2), min b2.height (imgH - y2)⟩

/-- `handleInteractionMove` as a pure function of the interaction kind,
the starting box, the scaled pointer delta and the image size. -/
def handleInteractionMove (kind : DragKind) (startBox : Box)
    (deltaX deltaY imgW imgH : ℚ) : Box :=
  clampBox (applyDrag kind startBox deltaX deltaY) imgW imgH

/-- The failure of a vendor-SDK call. -/
inductive ApiError where
  | failure

/-- `enhancePrompt` from `geminiService.ts`, as a function of the prompt
and of the outcome of the underlying `generateContent` call: on success it
returns the trimmed response text; on failure it catches the error, logs
it, and returns the original prompt
(`return prompt; // Fallback to original prompt on error`). -/
def enhancePrompt (prompt : String) (api : Except ApiError String) :
    Except ApiError String :=
  match api with
  | .ok text => .ok text.trim
  | .error _ => .ok prompt

/-- A 1×1 opaque test image for concrete evaluation. -/
def sampleImg : Img := ⟨1, 1, fun _ _ => ⟨9, 9, 9, 1⟩⟩

/-- A 1×1 fully transparent test image. -/
def blankImg : Img := ⟨1, 1, fun _ _ => ⟨0, 0, 0, 0⟩⟩

/-- A 2×1 test image with distinct pixel values per column. -/
def flipSample : Img := ⟨2, 1, fun x _ => ⟨x, 0, 0, 255⟩⟩

/-- `manualCrop` from `useImageProcessor`: a fresh canvas of the crop
box's size onto which the source rectangle at `(cropBox.x, cropBox.y)` of
that same size is copied 1:1
(`drawImage(img, x, y, w, h, 0, 0, w, h)`); points outside the copied
rectangle keep the fresh canvas's blank value. -/
def manualCrop (img : CImg) (cropBox : Box) : CImg :=
  ⟨cropBox.width, cropBox.height,
    fun px py =>
      if 0 ≤ px ∧ px < cropBox.width ∧ 0 ≤ py ∧ py < cropBox.height then
        img.pix (cropBox.x + px) (cropBox.y + py)
      else 0⟩

/-- Two continuous images are equal as bitmaps: same dimensions and the
same value at every point. -/
def CImgEq (a b : CImg) : Prop :=
  a.width = b.width ∧ a.height = b.height ∧ ∀ x y, a.pix x y = b.pix x y

/-- Two raster images are equal as bitmaps: same dimensions and the same
value at every pixel. -/
def ImgEq (a b : Img) : Prop :=
  a.width = b.width ∧ a.height = b.height ∧ ∀ x y, a.pix x y = b.pix x y

/-- Two grids are equal as arguments to `mixImages`: cell for cell, both
empty or both holding equal bitmaps. -/
def GridEq (g g' : Grid) : Prop :=
  ∀ r c, (g r c = none ∧ g' r c = none) ∨
    ∃ i i', g r c = some i ∧ g' r c = some i' ∧ CImgEq i i'

/-- Two `autoCrop` results are equal: both the unchanged original, or both
crops of equal bitmaps. -/
def CropResultEq (a b : CropResult) : Prop :=
  match a, b with
  | .original, .original => True
  | .cropped i, .cropped i' => ImgEq i i'
  | _, _ => False

/-- Points in a cell rectangle determine the cell index, on each axis:
with nonnegative padding and positive cell size the per-index intervals
`[cellPos c, cellPos c + cell)` are pairwise disjoint. -/
lemma cellPos_add_le (padding cell : ℚ) (hp : 0 ≤ padding) (hc : 0 < cell)
    {c c' : ℕ} (h : c < c') :
    cellPos padding cell c + cell ≤ cellPos padding cell c' := by
  unfold cellPos
  have h1 : (c : ℚ) + 1 ≤ (c' : ℚ) := by exact_mod_cast Nat.succ_le_of_lt h
  have h2 : (0 : ℚ) ≤ cell + padding := by linarith
  have h3 : ((c : ℚ) + 1) * (cell + padding) ≤ (c' : ℚ) * (cell + padding) :=
    mul_le_mul_of_nonneg_right h1 h2
  nlinarith

/-- A point lies in the interval of at most one cell index. -/
lemma cellInterval_inj (padding cell : ℚ) (hp : 0 ≤ padding) (hc : 0 < cell)
    {c c' : ℕ} {t : ℚ}
    (h1 : cellPos padding cell c ≤ t) (h2 : t < cellPos padding cell c + cell)
    (h3 : cellPos padding cell c' ≤ t) (h4 : t < cellPos padding cell c' + cell) :
    c = c' := by
  rcases lt_trichotomy c c' with h | h | h
  · have := cellPos_add_le padding cell hp hc h
    exact absurd h3 (by linarith)
  · exact h
  · have := cellPos_add_le padding cell hp hc h
    exact absurd h1 (by linarith)

/-- A point lies in the rectangle of at most one cell. -/
lemma inCellRect_inj (padding cw ch : ℚ) (hp : 0 ≤ padding)
    (hcw : 0 < cw) (hch : 0 < ch) {rc rc' : ℕ × ℕ} {px py : ℚ}
    (h : inCellRect padding cw ch rc px py)
    (h' : inCellRect padding cw ch rc' px py) : rc = rc' := by
  obtain ⟨hx1, hx2, hy1, hy2⟩ := h
  obtain ⟨hx1', hx2', hy1', hy2'⟩ := h'
  have hc : rc.2 = rc'.2 := cellInterval_inj padding cw hp hcw hx1 hx2 hx1' hx2'
  have hr : rc.1 = rc'.1 := cellInterval_inj padding ch hp hch hy1 hy2 hy1' hy2'
  exact Prod.ext hr hc

/-- `drawCell` on an empty cell leaves the canvas unchanged. -/
lemma drawCell_none (grid : Grid) (padding cw ch : ℚ)
    (canvas : ℚ → ℚ → Color) (rc : ℕ × ℕ) (h : grid rc.1 rc.2 = none) :
    drawCell grid padding cw ch canvas rc = canvas := by
  unfold drawCell
  rw [h]

/-- `drawCell` on a non-empty cell is a scaled draw at the cell position. -/
lemma drawCell_some (grid : Grid) (padding cw ch : ℚ)
    (canvas : ℚ → ℚ → Color) (rc : ℕ × ℕ) (img : CImg)
    (h : grid rc.1 rc.2 = some img) :
    drawCell grid padding cw ch canvas rc =
      drawImageAt canvas img (cellPos padding cw rc.2)
        (cellPos padding ch rc.1) cw ch := by
  unfold drawCell
  rw [h]

/-- A draw call leaves points outside its destination rectangle unchanged. -/
lemma drawImageAt_of_not_mem (canvas : ℚ → ℚ → Color) (img : CImg)
    (dx dy dw dh px py : ℚ)
    (h : ¬ (dx ≤ px ∧ px < dx + dw ∧ dy ≤ py ∧ py < dy + dh)) :
    drawImageAt canvas img dx dy dw dh px py = canvas px py := by
  simp only [drawImageAt]
  rw [if_neg h]

/-- A draw call paints points of its destination rectangle with the scaled
source sample. -/
lemma drawImageAt_of_mem (canvas : ℚ → ℚ → Color) (img : CImg)
    (dx dy dw dh px py : ℚ)
    (h : dx ≤ px ∧ px < dx + dw ∧ dy ≤ py ∧ py < dy + dh) :
    drawImageAt canvas img dx dy dw dh px py =
      img.pix ((px - dx) * img.width / dw) ((py - dy) * img.height / dh) := by
  simp only [drawImageAt]
  rw [if_pos h]

/-- A `drawCell` step leaves a point unchanged when the cell is empty or the
point lies outside its rectangle. -/
lemma drawCell_miss (grid : Grid) (padding cw ch : ℚ)
    (canvas : ℚ → ℚ → Color) (rc : ℕ × ℕ) (px py : ℚ)
    (h : grid rc.1 rc.2 = none ∨ ¬ inCellRect padding cw ch rc px py) :
    drawCell grid padding cw ch canvas rc px py = canvas px py := by
  cases hg : grid rc.1 rc.2 with
  | none => rw [drawCell_none grid padding cw ch canvas rc hg]
  | some img =>
      rcases h with h | h
      · rw [hg] at h
        exact absurd h (by simp)
      · rw [drawCell_some grid padding cw ch canvas rc img hg]
        exact drawImageAt_of_not_mem canvas img _ _ cw ch px py h

/-- Drawing a list of cells leaves a point untouched when the point lies in
no rectangle of a non-empty cell of the list. -/
lemma foldl_drawCell_not_covered (grid : Grid) (padding cw ch : ℚ)
    (l : List (ℕ × ℕ)) (canvas : ℚ → ℚ → Color) (px py : ℚ)
    (h : ∀ rc ∈ l, grid rc.1 rc.2 = none ∨ ¬ inCellRect padding cw ch rc px py) :
    l.foldl (drawCell grid padding cw ch) canvas px py = canvas px py := by
  induction l generalizing canvas with
  | nil => rfl
  | cons a t ih =>
      have ha := h a (List.mem_cons_self a t)
      have ht : ∀ rc ∈ t, grid rc.1 rc.2 = none ∨
          ¬ inCellRect padding cw ch rc px py :=
        fun rc hrc => h rc (List.mem_cons_of_mem a hrc)
      rw [List.foldl_cons]
      calc (t.foldl (drawCell grid padding cw ch)
              (drawCell grid padding cw ch canvas a)) px py
          = drawCell grid padding cw ch canvas a px py := ih _ ht
        _ = canvas px py := drawCell_miss grid padding cw ch canvas a px py ha

/-- Drawing a duplicate-free list of cells paints a point of the rectangle
of a non-empty cell of the list with that cell's scaled image, provided the
point lies in no other cell's rectangle. -/
lemma foldl_drawCell_covered (grid : Grid) (padding cw ch : ℚ)
    (l : List (ℕ × ℕ)) (canvas : ℚ → ℚ → Color) (px py : ℚ)
    (rc₀ : ℕ × ℕ) (img : CImg)
    (hnd : l.Nodup) (hmem : rc₀ ∈ l) (himg : grid rc₀.1 rc₀.2 = some img)
    (hin : inCellRect padding cw ch rc₀ px py)
    (hmiss : ∀ rc ∈ l, rc ≠ rc₀ → ¬ inCellRect padding cw ch rc px py) :
    l.foldl (drawCell grid padding cw ch) canvas px py =
      img.pix ((px - cellPos padding cw rc₀.2) * img.width / cw)
        ((py - cellPos padding ch rc₀.1) * img.height / ch) := by
  induction l generalizing canvas with
  | nil => exact absurd hmem (List.not_mem_nil rc₀)
  | cons a t ih =>
      rw [List.foldl_cons]
      rcases List.mem_cons.mp hmem with rfl | hmem'
      · have hnot : rc₀ ∉ t := (List.nodup_cons.mp hnd).1
        have ht : ∀ rc ∈ t, grid rc.1 rc.2 = none ∨
            ¬ inCellRect padding cw ch rc px py := by
          intro rc hrc
          exact Or.inr (hmiss rc (List.mem_cons_of_mem rc₀ hrc)
            (fun he => hnot (he ▸ hrc)))
        rw [foldl_drawCell_not_covered grid padding cw ch t _ px py ht,
          drawCell_some grid padding cw ch canvas rc₀ img himg]
        exact drawImageAt_of_mem canvas img _ _ cw ch px py hin
      · have hne : a ≠ rc₀ := by
          intro he
          exact (List.nodup_cons.mp hnd).1 (he ▸ hmem')
        have ht : ∀ rc ∈ t, rc ≠ rc₀ → ¬ inCellRect padding cw ch rc px py :=
          fun rc hrc => hmiss rc (List.mem_cons_of_mem a hrc)
        exact ih _ (List.nodup_cons.mp hnd).2 hmem' ht

/-- Membership in the loop's index list is exactly being in range. -/
lemma mem_cellPairs (rows cols : ℕ) (rc : ℕ × ℕ) :
    rc ∈ cellPairs rows cols ↔ rc.1 < rows ∧ rc.2 < cols := by
  obtain ⟨r, c⟩ := rc
  unfold cellPairs
  rw [List.pair_mem_product, List.mem_range, List.mem_range]

/-- The loop visits each cell exactly once. -/
lemma nodup_cellPairs (rows cols : ℕ) : (cellPairs rows cols).Nodup :=
  (List.nodup_range rows).product (List.nodup_range cols)

/-- C1.  When the padding leaves positive content space, `mixImages`
produces a `finalWidth × finalHeight` image in which every non-empty cell
`(r, c)` is drawn scaled to `cellWidth × cellHeight` at
`(padding + c·(cellWidth+padding), padding + r·(cellHeight+padding))`,
with `cellWidth = (finalWidth − padding·(cols+1))/cols` and
`cellHeight = (finalHeight − padding·(rows+1))/rows`, and every pixel of
the canvas covered by no drawn cell is the background color. -/
theorem mixImages_grid_layout (grid : Grid) (cols rows : ℕ)
    (finalWidth finalHeight padding : ℚ) (bg : Color) (cw ch : ℚ)
    (hcols : 0 < cols) (hrows : 0 < rows) (hp : 0 ≤ padding)
    (hW : 0 < finalWidth - padding * (cols + 1))
    (hH : 0 < finalHeight - padding * (rows + 1))
    (hcw : cw = (finalWidth - padding * (cols + 1)) / cols)
    (hch : ch = (finalHeight - padding * (rows + 1)) / rows) :
    (mixImages grid cols rows finalWidth finalHeight padding bg).width = finalWidth ∧
    (mixImages grid cols rows finalWidth finalHeight padding bg).height = finalHeight ∧
    (∀ r c img, r < rows → c < cols → grid r c = some img →
      ∀ px py, inCellRect padding cw ch (r, c) px py →
        (mixImages grid cols rows finalWidth finalHeight padding bg).pix px py =
          img.pix ((px - cellPos padding cw c) * img.width / cw)
            ((py - cellPos padding ch r) * img.height / ch)) ∧
    (∀ px py, 0 ≤ px → px < finalWidth → 0 ≤ py → py < finalHeight →
      (∀ r c, r < rows → c < cols → grid r c ≠ none →
        ¬ inCellRect padding cw ch (r, c) px py) →
      (mixImages grid cols rows finalWidth finalHeight padding bg).pix px py = bg) := by
  have hcond : ¬ (finalWidth - padding * (cols + 1) ≤ 0 ∨
      finalHeight - padding * (rows + 1) ≤ 0) := by
    push_neg
    exact ⟨hW, hH⟩
  have hcolsQ : (0 : ℚ) < cols := by exact_mod_cast hcols
  have hrowsQ : (0 : ℚ) < rows := by exact_mod_cast hrows
  have hcw0 : 0 < cw := by
    rw [hcw]
    exact div_pos hW hcolsQ
  have hch0 : 0 < ch := by
    rw [hch]
    exact div_pos hH hrowsQ
  have hmix : mixImages grid cols rows finalWidth finalHeight padding bg =
      ⟨finalWidth, finalHeight,
        mixRender grid padding cw ch finalWidth finalHeight bg
          (cellPairs rows cols)⟩ := by
    rw [hcw, hch]
    simp only [mixImages]
    rw [if_neg hcond]
  rw [hmix]
  refine ⟨rfl, rfl, ?_, ?_⟩
  · intro r c img hr hc himg px py hin
    exact foldl_drawCell_covered grid padding cw ch (cellPairs rows cols) _
      px py (r, c) img (nodup_cellPairs rows cols)
      ((mem_cellPairs rows cols (r, c)).mpr ⟨hr, hc⟩) himg hin
      (fun rc hrc hne hcontra =>
        hne (inCellRect_inj padding cw ch hp hcw0 hch0 hcontra hin))
  · intro px py hx0 hx1 hy0 hy1 hmiss
    have hall : ∀ rc ∈ cellPairs rows cols, grid rc.1 rc.2 = none ∨
        ¬ inCellRect padding cw ch rc px py := by
      intro rc hrc
      obtain ⟨hr, hc⟩ := (mem_cellPairs rows cols rc).mp hrc
      by_cases hg : grid rc.1 rc.2 = none
      · exact Or.inl hg
      · exact Or.inr (hmiss rc.1 rc.2 hr hc hg)
    show mixRender grid padding cw ch finalWidth finalHeight bg
        (cellPairs rows cols) px py = bg
    unfold mixRender
    rw [foldl_drawCell_not_covered grid padding cw ch _ _ px py hall]
    simp only [fillRect]
    rw [if_pos ⟨hx0, by linarith, hy0, by linarith⟩]

/-- Witness for C1 at a concrete input: a 1×1 grid of empty cells on a unit
canvas with zero padding. -/
theorem mixImages_grid_layout_witness :
    (0 : ℚ) < 1 - 0 * ((1 : ℕ) + 1) ∧
      (mixImages (fun _ _ => none) 1 1 1 1 0 0).width = 1 :=
  ⟨by norm_num,
    (mixImages_grid_layout (fun _ _ => none) 1 1 1 1 0 0 1 1
      Nat.one_pos Nat.one_pos le_rfl (by norm_num) (by norm_num)
      (by norm_num) (by norm_num)).1⟩

/-- C8.  When the padding consumes the whole canvas on either axis,
`mixImages` still returns a `finalWidth × finalHeight` image, every pixel
of which is the background color: no cell is drawn, and nothing fails. -/
theorem mixImages_padding_too_large (grid : Grid) (cols rows : ℕ)
    (finalWidth finalHeight padding : ℚ) (bg : Color)
    (h : finalWidth ≤ padding * (cols + 1) ∨
      finalHeight ≤ padding * (rows + 1)) :
    (mixImages grid cols rows finalWidth finalHeight padding bg).width = finalWidth ∧
    (mixImages grid cols rows finalWidth finalHeight padding bg).height = finalHeight ∧
    (∀ px py, 0 ≤ px → px < finalWidth → 0 ≤ py → py < finalHeight →
      (mixImages grid cols rows finalWidth finalHeight padding bg).pix px py = bg) := by
  have hcond : finalWidth - padding * (cols + 1) ≤ 0 ∨
      finalHeight - padding * (rows + 1) ≤ 0 := by
    rcases h with h | h
    · exact Or.inl (by linarith)
    · exact Or.inr (by linarith)
  have hmix : mixImages grid cols rows finalWidth finalHeight padding bg =
      ⟨finalWidth, finalHeight,
        fillRect (fun _ _ => 0) 0 0 finalWidth finalHeight bg⟩ := by
    simp only [mixImages]
    rw [if_pos hcond]
  rw [hmix]
  refine ⟨rfl, rfl, ?_⟩
  intro px py hx0 hx1 hy0 hy1
  show fillRect (fun _ _ => 0) 0 0 finalWidth finalHeight bg px py = bg
  simp only [fillRect]
  rw [if_pos ⟨hx0, by linarith, hy0, by linarith⟩]

/-- Witness for C8: padding 1 on a 1×1 canvas with a 1×1 grid. -/
theorem mixImages_padding_too_large_witness :
    (1 : ℚ) ≤ 1 * ((1 : ℕ) + 1) ∧
      (mixImages (fun _ _ => none) 1 1 1 1 1 7).pix 0 0 = 7 :=
  ⟨by norm_num,
    (mixImages_padding_too_large (fun _ _ => none) 1 1 1 1 1 7
      (Or.inl (by norm_num))).2.2 0 0 le_rfl (by norm_num) le_rfl (by norm_num)⟩

/-- With nonnegative padding and positive cell sizes the cell rectangles
are pairwise disjoint, so drawing the cells in any order yields the same
canvas, point for point. -/
lemma foldl_drawCell_perm_invariant (grid : Grid) (padding cw ch : ℚ)
    (hp : 0 ≤ padding) (hcw : 0 < cw) (hch : 0 < ch)
    (l l' : List (ℕ × ℕ)) (hperm : l.Perm l') (hnd : l.Nodup)
    (canvas : ℚ → ℚ → Color) (px py : ℚ) :
    l.foldl (drawCell grid padding cw ch) canvas px py =
      l'.foldl (drawCell grid padding cw ch) canvas px py := by
  by_cases hex : ∃ rc img, rc ∈ l ∧ grid rc.1 rc.2 = some img ∧
      inCellRect padding cw ch rc px py
  · obtain ⟨rc₀, img, hmem, himg, hin⟩ := hex
    have hmiss : ∀ rc, rc ≠ rc₀ → ¬ inCellRect padding cw ch rc px py :=
      fun rc hne hcon => hne (inCellRect_inj padding cw ch hp hcw hch hcon hin)
    rw [foldl_drawCell_covered grid padding cw ch l canvas px py rc₀ img
        hnd hmem himg hin (fun rc _ => hmiss rc),
      foldl_drawCell_covered grid padding cw ch l' canvas px py rc₀ img
        (hperm.nodup_iff.mp hnd) (hperm.subset hmem) himg hin
        (fun rc _ => hmiss rc)]
  · push_neg at hex
    have hall : ∀ rc ∈ l, grid rc.1 rc.2 = none ∨
        ¬ inCellRect padding cw ch rc px py := by
      intro rc hrc
      cases hg : grid rc.1 rc.2 with
      | none => exact Or.inl rfl
      | some img => exact Or.inr (hex rc img hrc hg)
    have hall' : ∀ rc ∈ l', grid rc.1 rc.2 = none ∨
        ¬ inCellRect padding cw ch rc px py :=
      fun rc hrc => hall rc (hperm.mem_iff.mpr hrc)
    rw [foldl_drawCell_not_covered grid padding cw ch l canvas px py hall,
      foldl_drawCell_not_covered grid padding cw ch l' canvas px py hall']

/-- The letterbox canvas is at least as wide as the source. -/
lemma letterboxCanvasWidth_pos (img : CImg) (R : ℚ)
    (hw : 0 < img.width) (hh : 0 < img.height) (hR : 0 < R) :
    0 < letterboxCanvasWidth img R ∧ img.width ≤ letterboxCanvasWidth img R := by
  unfold letterboxCanvasWidth
  by_cases hgt : img.width / img.height > R
  · rw [if_pos hgt]
    exact ⟨hw, le_rfl⟩
  · rw [if_neg hgt]
    have h1 : img.width / img.height ≤ R := le_of_not_lt hgt
    have h2 : img.width ≤ R * img.height := (div_le_iff hh).mp h1
    exact ⟨mul_pos hh hR, by linarith [h2, mul_comm R img.height]⟩

/-- The letterbox canvas is at least as tall as the source. -/
lemma letterboxCanvasHeight_pos (img : CImg) (R : ℚ)
    (hw : 0 < img.width) (hh : 0 < img.height) (hR : 0 < R) :
    0 < letterboxCanvasHeight img R ∧ img.height ≤ letterboxCanvasHeight img R := by
  unfold letterboxCanvasHeight
  by_cases hgt : img.width / img.height > R
  · rw [if_pos hgt]
    have h1 : R * img.height < img.width := (lt_div_iff hh).mp hgt
    have h2 : img.height < img.width / R := by
      rw [lt_div_iff hR]
      linarith [mul_comm img.height R]
    exact ⟨div_pos hw hR, le_of_lt h2⟩
  · rw [if_neg hgt]
    exact ⟨hh, le_rfl⟩

/-- The letterbox canvas has exactly the target aspect ratio. -/
lemma letterboxCanvas_ratio (img : CImg) (R : ℚ)
    (hw : 0 < img.width) (hh : 0 < img.height) (hR : 0 < R) :
    letterboxCanvasWidth img R / letterboxCanvasHeight img R = R := by
  unfold letterboxCanvasWidth letterboxCanvasHeight
  by_cases hgt : img.width / img.height > R
  · rw [if_pos hgt, if_pos hgt]
    rw [div_div_eq_mul_div, mul_comm, mul_div_assoc, div_self (ne_of_gt hw),
      mul_one]
  · rw [if_neg hgt, if_neg hgt]
    rw [mul_comm, mul_div_assoc, div_self (ne_of_gt hh), mul_one]

/-- The scale of `letterboxImage` is positive and at most one. -/
lemma letterboxScale_pos (img : CImg) (R : ℚ)
    (hw : 0 < img.width) (hh : 0 < img.height) (hR : 0 < R) :
    0 < letterboxScale img R ∧ letterboxScale img R ≤ 1 := by
  have hcw := (letterboxCanvasWidth_pos img R hw hh hR).1
  have hch := (letterboxCanvasHeight_pos img R hw hh hR).1
  constructor
  · exact lt_min (lt_min (div_pos (by norm_num) hcw) (div_pos (by norm_num) hch))
      one_pos
  · exact min_le_right _ _

/-- C3.  `letterboxImage` returns an image whose width-to-height ratio is
exactly the target ratio, in which the whole source appears at one scale
factor on both axes, centered (equal margins on each axis, both
nonnegative, so nothing is cropped), and every canvas pixel outside the
drawn source rectangle is the background color. -/
theorem letterboxImage_fits (img : CImg) (R : ℚ) (bg : Color)
    (hw : 0 < img.width) (hh : 0 < img.height) (hR : 0 < R) :
    (letterboxImage img R bg).width / (letterboxImage img R bg).height = R ∧
    0 < letterboxScale img R ∧
    0 ≤ letterboxOffsetX img R ∧ 0 ≤ letterboxOffsetY img R ∧
    letterboxOffsetX img R + img.width * letterboxScale img R +
      letterboxOffsetX img R = (letterboxImage img R bg).width ∧
    letterboxOffsetY img R + img.height * letterboxScale img R +
      letterboxOffsetY img R = (letterboxImage img R bg).height ∧
    (∀ px py,
      letterboxOffsetX img R ≤ px →
      px < letterboxOffsetX img R + img.width * letterboxScale img R →
      letterboxOffsetY img R ≤ py →
      py < letterboxOffsetY img R + img.height * letterboxScale img R →
      (letterboxImage img R bg).pix px py =
        img.pix ((px - letterboxOffsetX img R) / letterboxScale img R)
          ((py - letterboxOffsetY img R) / letterboxScale img R)) ∧
    (∀ px py,
      0 ≤ px → px < (letterboxImage img R bg).width →
      0 ≤ py → py < (letterboxImage img R bg).height →
      ¬ (letterboxOffsetX img R ≤ px ∧
         px < letterboxOffsetX img R + img.width * letterboxScale img R ∧
         letterboxOffsetY img R ≤ py ∧
         py < letterboxOffsetY img R + img.height * letterboxScale img R) →
      (letterboxImage img R bg).pix px py = bg) := by
  obtain ⟨hcw, hwle⟩ := letterboxCanvasWidth_pos img R hw hh hR
  obtain ⟨hch, hhle⟩ := letterboxCanvasHeight_pos img R hw hh hR
  obtain ⟨hs, hs1⟩ := letterboxScale_pos img R hw hh hR
  refine ⟨?_, hs, ?_, ?_, ?_, ?_, ?_, ?_⟩
  · show letterboxCanvasWidth img R * letterboxScale img R /
        (letterboxCanvasHeight img R * letterboxScale img R) = R
    rw [mul_div_mul_right _ _ (ne_of_gt hs)]
    exact letterboxCanvas_ratio img R hw hh hR
  · unfold letterboxOffsetX
    have : 0 ≤ (letterboxCanvasWidth img R - img.width) * letterboxScale img R := by
      apply mul_nonneg (by linarith) (le_of_lt hs)
    nlinarith
  · unfold letterboxOffsetY
    have : 0 ≤ (letterboxCanvasHeight img R - img.height) * letterboxScale img R := by
      apply mul_nonneg (by linarith) (le_of_lt hs)
    nlinarith
  · show letterboxOffsetX img R + img.width * letterboxScale img R +
        letterboxOffsetX img R =
      letterboxCanvasWidth img R * letterboxScale img R
    unfold letterboxOffsetX
    ring
  · show letterboxOffsetY img R + img.height * letterboxScale img R +
        letterboxOffsetY img R =
      letterboxCanvasHeight img R * letterboxScale img R
    unfold letterboxOffsetY
    ring
  · intro px py hx1 hx2 hy1 hy2
    show drawImageAt _ img (letterboxOffsetX img R) (letterboxOffsetY img R)
        (img.width * letterboxScale img R) (img.height * letterboxScale img R)
        px py = _
    rw [drawImageAt_of_mem _ img _ _ _ _ px py ⟨hx1, hx2, hy1, hy2⟩]
    have e1 : (px - letterboxOffsetX img R) * img.width /
        (img.width * letterboxScale img R) =
        (px - letterboxOffsetX img R) / letterboxScale img R := by
      rw [mul_comm img.width (letterboxScale img R),
        mul_div_mul_right _ _ (ne_of_gt hw)]
    have e2 : (py - letterboxOffsetY img R) * img.height /
        (img.height * letterboxScale img R) =
        (py - letterboxOffsetY img R) / letterboxScale img R := by
      rw [mul_comm img.height (letterboxScale img R),
        mul_div_mul_right _ _ (ne_of_gt hh)]
    rw [e1, e2]
  · intro px py hx0 hx1 hy0 hy1 hout
    have hx1' : px < letterboxCanvasWidth img R * letterboxScale img R := hx1
    have hy1' : py < letterboxCanvasHeight img R * letterboxScale img R := hy1
    show drawImageAt _ img (letterboxOffsetX img R) (letterboxOffsetY img R)
        (img.width * letterboxScale img R) (img.height * letterboxScale img R)
        px py = bg
    rw [drawImageAt_of_not_mem _ img _ _ _ _ px py hout]
    show fillRect (fun _ _ => 0) 0 0
        (letterboxCanvasWidth img R * letterboxScale img R)
        (letterboxCanvasHeight img R * letterboxScale img R) bg px py = bg
    simp only [fillRect]
    rw [if_pos ⟨hx0, by linarith [hx1'], hy0, by linarith [hy1']⟩]

/-- Witness for C3: a 1×1 source letterboxed to ratio 2. -/
theorem letterboxImage_fits_witness :
    (0 : ℚ) < 1 ∧
      (letterboxImage ⟨1, 1, fun _ _ => 3⟩ 2 9).width /
        (letterboxImage ⟨1, 1, fun _ _ => 3⟩ 2 9).height = 2 :=
  ⟨by norm_num,
    (letterboxImage_fits ⟨1, 1, fun _ _ => 3⟩ 2 9 (by norm_num) (by norm_num)
      (by norm_num)).1⟩

/-- C9.  Both dimensions of the letterbox canvas are at most 1500, the
scale factor is at most one, and the source is drawn no larger than its
natural size on either axis (never upscaled). -/
theorem letterboxImage_bounded (img : CImg) (R : ℚ) (bg : Color)
    (hw : 0 < img.width) (hh : 0 < img.height) (hR : 0 < R) :
    (letterboxImage img R bg).width ≤ 1500 ∧
    (letterboxImage img R bg).height ≤ 1500 ∧
    letterboxScale img R ≤ 1 ∧
    img.width * letterboxScale img R ≤ img.width ∧
    img.height * letterboxScale img R ≤ img.height := by
  obtain ⟨hcw, hwle⟩ := letterboxCanvasWidth_pos img R hw hh hR
  obtain ⟨hch, hhle⟩ := letterboxCanvasHeight_pos img R hw hh hR
  obtain ⟨hs, hs1⟩ := letterboxScale_pos img R hw hh hR
  have hsW : letterboxScale img R ≤ 1500 / letterboxCanvasWidth img R :=
    le_trans (min_le_left _ _) (min_le_left _ _)
  have hsH : letterboxScale img R ≤ 1500 / letterboxCanvasHeight img R :=
    le_trans (min_le_left _ _) (min_le_right _ _)
  have hW : letterboxScale img R * letterboxCanvasWidth img R ≤ 1500 :=
    (le_div_iff₀ hcw).mp hsW
  have hH : letterboxScale img R * letterboxCanvasHeight img R ≤ 1500 :=
    (le_div_iff₀ hch).mp hsH
  refine ⟨?_, ?_, hs1, ?_, ?_⟩
  · show letterboxCanvasWidth img R * letterboxScale img R ≤ 1500
    linarith [mul_comm (letterboxScale img R) (letterboxCanvasWidth img R)]
  · show letterboxCanvasHeight img R * letterboxScale img R ≤ 1500
    linarith [mul_comm (letterboxScale img R) (letterboxCanvasHeight img R)]
  · nlinarith
  · nlinarith

/-- Witness for C9: a 2000×1000 source letterboxed to ratio 2 stays within
the 1500-pixel cap. -/
theorem letterboxImage_bounded_witness :
    (0 : ℚ) < 2000 ∧
      (letterboxImage ⟨2000, 1000, fun _ _ => 3⟩ 2 9).width ≤ 1500 :=
  ⟨by norm_num,
    (letterboxImage_bounded ⟨2000, 1000, fun _ _ => 3⟩ 2 9 (by norm_num)
      (by norm_num) (by norm_num)).1⟩

/-- `sqrtGt` agrees with the real square-root comparison of the source. -/
lemma sqrtGt_iff (d2 : ℤ) (t : ℚ) (h : 0 ≤ d2) :
    sqrtGt d2 t = true ↔ (t : ℝ) < Real.sqrt (d2 : ℝ) := by
  unfold sqrtGt
  rcases lt_or_le t 0 with ht | ht
  · simp only [decide_eq_true_eq, Bool.or_eq_true]
    constructor
    · intro _
      calc (t : ℝ) < 0 := by exact_mod_cast ht
        _ ≤ Real.sqrt (d2 : ℝ) := Real.sqrt_nonneg _
    · intro _
      exact Or.inl ht
  · have ht' : ¬ (t < 0) := not_lt.mpr ht
    simp only [decide_eq_true_eq, Bool.or_eq_true, ht', false_or]
    have htR : (0 : ℝ) ≤ (t : ℝ) := by exact_mod_cast ht
    rw [Real.lt_sqrt htR]
    constructor
    · intro hlt
      have : ((t * t : ℚ) : ℝ) < ((d2 : ℚ) : ℝ) := by exact_mod_cast hlt
      push_cast at this
      nlinarith
    · intro hlt
      have : ((t : ℝ)) * t < (d2 : ℝ) := by nlinarith
      exact_mod_cast this

/-- The code's pixel classification coincides with the claim's. -/
lemma isContent_iff_spec (cropColor : Option RGB) (tolerance : ℚ) (p : RGBA) :
    isContent cropColor tolerance p = true ↔ specIsContent cropColor tolerance p := by
  cases cropColor with
  | none => simp [isContent, specIsContent]
  | some cc =>
      have hd : (0 : ℤ) ≤ colorDistSq cc p := by
        unfold colorDistSq
        positivity
      simp only [isContent, specIsContent, Bool.and_eq_true, decide_eq_true_eq]
      rw [sqrtGt_iff _ _ hd]

/-- A left fold of `min` never exceeds its initial value. -/
lemma foldl_min_le_init {α : Type} [LinearOrder α] (l : List α) (a : α) :
    l.foldl min a ≤ a := by
  induction l generalizing a with
  | nil => exact le_rfl
  | cons b t ih => exact le_trans (ih (min a b)) (min_le_left a b)

/-- A left fold of `min` never exceeds any list element. -/
lemma foldl_min_le_mem {α : Type} [LinearOrder α] (l : List α) (a x : α)
    (h : x ∈ l) : l.foldl min a ≤ x := by
  induction l generalizing a with
  | nil => exact absurd h (List.not_mem_nil x)
  | cons b t ih =>
      rcases List.mem_cons.mp h with rfl | h'
      · exact le_trans (foldl_min_le_init t (min a x)) (min_le_right a x)
      · exact ih (min a b) h'

/-- A left fold of `min` is the initial value or a list element. -/
lemma foldl_min_eq_init_or_mem {α : Type} [LinearOrder α] (l : List α) (a : α) :
    l.foldl min a = a ∨ l.foldl min a ∈ l := by
  induction l generalizing a with
  | nil => exact Or.inl rfl
  | cons b t ih =>
      rcases ih (min a b) with h | h
      · rcases min_choice a b with hm | hm
        · exact Or.inl (by rw [List.foldl_cons, h, hm])
        · exact Or.inr (by rw [List.foldl_cons, h, hm]; exact List.mem_cons_self b t)
      · exact Or.inr (List.mem_cons_of_mem b h)

/-- A left fold of `max` is at least its initial value. -/
lemma le_foldl_max_init {α : Type} [LinearOrder α] (l : List α) (a : α) :
    a ≤ l.foldl max a := by
  induction l generalizing a with
  | nil => exact le_rfl
  | cons b t ih => exact le_trans (le_max_left a b) (ih (max a b))

/-- A left fold of `max` is at least any list element. -/
lemma le_foldl_max_mem {α : Type} [LinearOrder α] (l : List α) (a x : α)
    (h : x ∈ l) : x ≤ l.foldl max a := by
  induction l generalizing a with
  | nil => exact absurd h (List.not_mem_nil x)
  | cons b t ih =>
      rcases List.mem_cons.mp h with rfl | h'
      · exact le_trans (le_max_right a x) (le_foldl_max_init t (max a x))
      · exact ih (max a b) h'

/-- A left fold of `max` is the initial value or a list element. -/
lemma foldl_max_eq_init_or_mem {α : Type} [LinearOrder α] (l : List α) (a : α) :
    l.foldl max a = a ∨ l.foldl max a ∈ l := by
  induction l generalizing a with
  | nil => exact Or.inl rfl
  | cons b t ih =>
      rcases ih (max a b) with h | h
      · rcases max_choice a b with hm | hm
        · exact Or.inl (by rw [List.foldl_cons, h, hm])
        · exact Or.inr (by rw [List.foldl_cons, h, hm]; exact List.mem_cons_self b t)
      · exact Or.inr (List.mem_cons_of_mem b h)

/-- The scan loop computes, componentwise, a `min`/`max` fold over the
coordinates of the content pixels. -/
lemma foldl_scanStep_eq (cropColor : Option RGB) (tolerance : ℚ) (img : Img)
    (l : List (ℕ × ℕ)) (s : ScanState) :
    l.foldl (scanStep cropColor tolerance img) s =
      ⟨(contentXs cropColor tolerance img l).foldl min s.minX,
       (contentYs cropColor tolerance img l).foldl min s.minY,
       (contentXs cropColor tolerance img l).foldl max s.maxX,
       (contentYs cropColor tolerance img l).foldl max s.maxY⟩ := by
  induction l generalizing s with
  | nil => rfl
  | cons a t ih =>
      rw [List.foldl_cons, ih]
      by_cases hc : isContent cropColor tolerance (img.pix a.2 a.1) = true
      · have hstep : scanStep cropColor tolerance img s a =
            ⟨min s.minX a.2, min s.minY a.1, max s.maxX a.2, max s.maxY a.1⟩ := by
          unfold scanStep
          rw [if_pos hc]
        rw [hstep]
        unfold contentXs contentYs
        simp only [List.filter_cons]
        rw [if_pos hc, List.map_cons, List.map_cons,
          List.foldl_cons, List.foldl_cons, List.foldl_cons, List.foldl_cons]
      · have hstep : scanStep cropColor tolerance img s a = s := by
          unfold scanStep
          rw [if_neg hc]
        rw [hstep]
        unfold contentXs contentYs
        simp only [List.filter_cons]
        rw [if_neg hc]

/-- Content pixels contribute their x-coordinate to the scan. -/
lemma contentXs_mem (cropColor : Option RGB) (tolerance : ℚ) (img : Img)
    {x y : ℕ} (h : contentAt img cropColor tolerance x y) :
    (x : ℤ) ∈ contentXs cropColor tolerance img (scanPairs img) := by
  obtain ⟨hx, hy, hc⟩ := h
  unfold contentXs scanPairs
  refine List.mem_map.mpr ⟨(y, x), ?_, rfl⟩
  refine List.mem_filter.mpr ⟨?_, hc⟩
  exact List.pair_mem_product.mpr ⟨List.mem_range.mpr hy, List.mem_range.mpr hx⟩

/-- Every x-coordinate recorded by the scan comes from a content pixel. -/
lemma contentXs_elim (cropColor : Option RGB) (tolerance : ℚ) (img : Img)
    {v : ℤ} (h : v ∈ contentXs cropColor tolerance img (scanPairs img)) :
    ∃ x y : ℕ, v = (x : ℤ) ∧ contentAt img cropColor tolerance x y := by
  unfold contentXs scanPairs at h
  obtain ⟨p, hp, hv⟩ := List.mem_map.mp h
  obtain ⟨hmem, hc⟩ := List.mem_filter.mp hp
  obtain ⟨hy, hx⟩ := List.pair_mem_product.mp hmem
  exact ⟨p.2, p.1, hv.symm,
    List.mem_range.mp hx, List.mem_range.mp hy, hc⟩

/-- Content pixels contribute their y-coordinate to the scan. -/
lemma contentYs_mem (cropColor : Option RGB) (tolerance : ℚ) (img : Img)
    {x y : ℕ} (h : contentAt img cropColor tolerance x y) :
    (y : ℤ) ∈ contentYs cropColor tolerance img (scanPairs img) := by
  obtain ⟨hx, hy, hc⟩ := h
  unfold contentYs scanPairs
  refine List.mem_map.mpr ⟨(y, x), ?_, rfl⟩
  refine List.mem_filter.mpr ⟨?_, hc⟩
  exact List.pair_mem_product.mpr ⟨List.mem_range.mpr hy, List.mem_range.mpr hx⟩

/-- Every y-coordinate recorded by the scan comes from a content pixel. -/
lemma contentYs_elim (cropColor : Option RGB) (tolerance : ℚ) (img : Img)
    {v : ℤ} (h : v ∈ contentYs cropColor tolerance img (scanPairs img)) :
    ∃ x y : ℕ, v = (y : ℤ) ∧ contentAt img cropColor tolerance x y := by
  unfold contentYs scanPairs at h
  obtain ⟨p, hp, hv⟩ := List.mem_map.mp h
  obtain ⟨hmem, hc⟩ := List.mem_filter.mp hp
  obtain ⟨hy, hx⟩ := List.pair_mem_product.mp hmem
  exact ⟨p.2, p.1, hv.symm,
    List.mem_range.mp hx, List.mem_range.mp hy, hc⟩

/-- C2.  `autoCrop` classifies a pixel as content exactly as the claim
states (alpha positive and, with a crop color, real Euclidean distance
above the tolerance), and when a content pixel exists it returns the crop
of the tight content bounding box: every content pixel lies inside it,
all four edges are attained by content pixels, the output measures
`maxX − minX + 1` by `maxY − minY + 1`, and its pixels are the input's
shifted by `(minX, minY)`. -/
theorem autoCrop_tight_bbox (img : Img) (cropColor : Option RGB) (tol : ℚ)
    (hex : ∃ x y, contentAt img cropColor tol x y) :
    (∀ x y, x < img.width → y < img.height →
      (isContent cropColor tol (img.pix x y) = true ↔
        specIsContent cropColor tol (img.pix x y))) ∧
    ∃ minX maxX minY maxY : ℕ,
      (∀ x y, contentAt img cropColor tol x y →
        minX ≤ x ∧ x ≤ maxX ∧ minY ≤ y ∧ y ≤ maxY) ∧
      (∃ y, contentAt img cropColor tol minX y) ∧
      (∃ y, contentAt img cropColor tol maxX y) ∧
      (∃ x, contentAt img cropColor tol x minY) ∧
      (∃ x, contentAt img cropColor tol x maxY) ∧
      ∃ out, autoCrop img cropColor tol = CropResult.cropped out ∧
        out.width = maxX - minX + 1 ∧
        out.height = maxY - minY + 1 ∧
        ∀ x y, out.pix x y = img.pix (minX + x) (minY + y) := by
  refine ⟨fun x y _ _ => isContent_iff_spec cropColor tol (img.pix x y), ?_⟩
  obtain ⟨x₀, y₀, hcont₀⟩ := hex
  have hx₀ := hcont₀.1
  have hy₀ := hcont₀.2.1
  have hS : scanBBox cropColor tol img =
      ⟨(contentXs cropColor tol img (scanPairs img)).foldl min img.width,
       (contentYs cropColor tol img (scanPairs img)).foldl min img.height,
       (contentXs cropColor tol img (scanPairs img)).foldl max (-1),
       (contentYs cropColor tol img (scanPairs img)).foldl max (-1)⟩ := by
    unfold scanBBox
    exact foldl_scanStep_eq cropColor tol img (scanPairs img)
      ⟨img.width, img.height, -1, -1⟩
  have hSminX : (scanBBox cropColor tol img).minX =
      (contentXs cropColor tol img (scanPairs img)).foldl min (img.width : ℤ) := by
    rw [hS]
  have hSminY : (scanBBox cropColor tol img).minY =
      (contentYs cropColor tol img (scanPairs img)).foldl min (img.height : ℤ) := by
    rw [hS]
  have hSmaxX : (scanBBox cropColor tol img).maxX =
      (contentXs cropColor tol img (scanPairs img)).foldl max (-1) := by
    rw [hS]
  have hSmaxY : (scanBBox cropColor tol img).maxY =
      (contentYs cropColor tol img (scanPairs img)).foldl max (-1) := by
    rw [hS]
  have hx₀mem := contentXs_mem cropColor tol img hcont₀
  have hy₀mem := contentYs_mem cropColor tol img hcont₀
  have hminX_le : (scanBBox cropColor tol img).minX ≤ (x₀ : ℤ) := by
    rw [hSminX]
    exact foldl_min_le_mem _ _ _ hx₀mem
  have hmaxX_ge : (x₀ : ℤ) ≤ (scanBBox cropColor tol img).maxX := by
    rw [hSmaxX]
    exact le_foldl_max_mem _ _ _ hx₀mem
  have hminY_le : (scanBBox cropColor tol img).minY ≤ (y₀ : ℤ) := by
    rw [hSminY]
    exact foldl_min_le_mem _ _ _ hy₀mem
  have hmaxY_ge : (y₀ : ℤ) ≤ (scanBBox cropColor tol img).maxY := by
    rw [hSmaxY]
    exact le_foldl_max_mem _ _ _ hy₀mem
  have hminXach : ∃ x y : ℕ, ((x : ℤ) = (scanBBox cropColor tol img).minX ∧
      contentAt img cropColor tol x y) := by
    rcases foldl_min_eq_init_or_mem
        (contentXs cropColor tol img (scanPairs img)) ((img.width : ℤ)) with h | h
    · rw [hSminX, h] at hminX_le
      exact absurd hminX_le (by omega)
    · obtain ⟨x, y, hxv, hcont⟩ := contentXs_elim cropColor tol img h
      exact ⟨x, y, by rw [hSminX, ← hxv], hcont⟩
  have hmaxXach : ∃ x y : ℕ, ((x : ℤ) = (scanBBox cropColor tol img).maxX ∧
      contentAt img cropColor tol x y) := by
    rcases foldl_max_eq_init_or_mem
        (contentXs cropColor tol img (scanPairs img)) (-1 : ℤ) with h | h
    · rw [hSmaxX, h] at hmaxX_ge
      exact absurd hmaxX_ge (by omega)
    · obtain ⟨x, y, hxv, hcont⟩ := contentXs_elim cropColor tol img h
      exact ⟨x, y, by rw [hSmaxX, ← hxv], hcont⟩
  have hminYach : ∃ x y : ℕ, ((y : ℤ) = (scanBBox cropColor tol img).minY ∧
      contentAt img cropColor tol x y) := by
    rcases foldl_min_eq_init_or_mem
        (contentYs cropColor tol img (scanPairs img)) ((img.height : ℤ)) with h | h
    · rw [hSminY, h] at hminY_le
      exact absurd hminY_le (by omega)
    · obtain ⟨x, y, hyv, hcont⟩ := contentYs_elim cropColor tol img h
      exact ⟨x, y, by rw [hSminY, ← hyv], hcont⟩
  have hmaxYach : ∃ x y : ℕ, ((y : ℤ) = (scanBBox cropColor tol img).maxY ∧
      contentAt img cropColor tol x y) := by
    rcases foldl_max_eq_init_or_mem
        (contentYs cropColor tol img (scanPairs img)) (-1 : ℤ) with h | h
    · rw [hSmaxY, h] at hmaxY_ge
      exact absurd hmaxY_ge (by omega)
    · obtain ⟨x, y, hyv, hcont⟩ := contentYs_elim cropColor tol img h
      exact ⟨x, y, by rw [hSmaxY, ← hyv], hcont⟩
  obtain ⟨mX, mXy, hmXv, hmXc⟩ := hminXach
  obtain ⟨MX, MXy, hMXv, hMXc⟩ := hmaxXach
  obtain ⟨mYx, mY, hmYv, hmYc⟩ := hminYach
  obtain ⟨MYx, MY, hMYv, hMYc⟩ := hmaxYach
  have hne : ¬ ((scanBBox cropColor tol img).maxX = -1) := by omega
  refine ⟨mX, MX, mY, MY, ?_, ⟨mXy, hmXc⟩, ⟨MXy, hMXc⟩, ⟨mYx, hmYc⟩,
    ⟨MYx, hMYc⟩, ?_⟩
  · intro x y hcont
    have h1 : (scanBBox cropColor tol img).minX ≤ (x : ℤ) := by
      rw [hSminX]
      exact foldl_min_le_mem _ _ _ (contentXs_mem cropColor tol img hcont)
    have h2 : (x : ℤ) ≤ (scanBBox cropColor tol img).maxX := by
      rw [hSmaxX]
      exact le_foldl_max_mem _ _ _ (contentXs_mem cropColor tol img hcont)
    have h3 : (scanBBox cropColor tol img).minY ≤ (y : ℤ) := by
      rw [hSminY]
      exact foldl_min_le_mem _ _ _ (contentYs_mem cropColor tol img hcont)
    have h4 : (y : ℤ) ≤ (scanBBox cropColor tol img).maxY := by
      rw [hSmaxY]
      exact le_foldl_max_mem _ _ _ (contentYs_mem cropColor tol img hcont)
    omega
  · refine ⟨⟨((scanBBox cropColor tol img).maxX -
        (scanBBox cropColor tol img).minX + 1).toNat,
      ((scanBBox cropColor tol img).maxY -
        (scanBBox cropColor tol img).minY + 1).toNat,
      fun x y => img.pix ((scanBBox cropColor tol img).minX.toNat + x)
        ((scanBBox cropColor tol img).minY.toNat + y)⟩, ?_, ?_, ?_, ?_⟩
    · simp only [autoCrop]
      rw [if_neg hne]
    · show ((scanBBox cropColor tol img).maxX -
        (scanBBox cropColor tol img).minX + 1).toNat = MX - mX + 1
      omega
    · show ((scanBBox cropColor tol img).maxY -
        (scanBBox cropColor tol img).minY + 1).toNat = MY - mY + 1
      omega
    · intro x y
      have e1 : (scanBBox cropColor tol img).minX.toNat = mX := by omega
      have e2 : (scanBBox cropColor tol img).minY.toNat = mY := by omega
      show img.pix ((scanBBox cropColor tol img).minX.toNat + x)
          ((scanBBox cropColor tol img).minY.toNat + y) =
        img.pix (mX + x) (mY + y)
      rw [e1, e2]

/-- C10.  With no content pixel — fully transparent, or every pixel within
tolerance of the crop color or transparent — `autoCrop` takes the
`maxX === -1` exit and returns the input data-URL itself, not a
re-encoding. -/
theorem autoCrop_no_content (img : Img) (cropColor : Option RGB) (tol : ℚ)
    (h : ∀ x y, x < img.width → y < img.height →
      isContent cropColor tol (img.pix x y) = false) :
    autoCrop img cropColor tol = CropResult.original := by
  have hfilter : (scanPairs img).filter
      (fun p => isContent cropColor tol (img.pix p.2 p.1)) = [] := by
    rw [List.filter_eq_nil]
    intro p hp
    have hmem : p ∈ (List.range img.height).product (List.range img.width) := hp
    obtain ⟨hy, hx⟩ := List.pair_mem_product.mp hmem
    have := h p.2 p.1 (List.mem_range.mp hx) (List.mem_range.mp hy)
    simp [this]
  have hmax : (scanBBox cropColor tol img).maxX = -1 := by
    unfold scanBBox
    rw [foldl_scanStep_eq cropColor tol img (scanPairs img)
      ⟨img.width, img.height, -1, -1⟩]
    show (contentXs cropColor tol img (scanPairs img)).foldl max (-1) = -1
    unfold contentXs
    rw [hfilter]
    rfl
  simp only [autoCrop]
  rw [if_pos hmax]

/-- C5.  Flipping twice in the same direction restores the image: same
dimensions and, on every in-range pixel, the original value. -/
theorem flipImage_involutive (img : Img) (d : FlipDir) :
    (flipImage (flipImage img d) d).width = img.width ∧
    (flipImage (flipImage img d) d).height = img.height ∧
    ∀ x y, x < img.width → y < img.height →
      (flipImage (flipImage img d) d).pix x y = img.pix x y := by
  cases d with
  | horizontal =>
      refine ⟨rfl, rfl, fun x y hx hy => ?_⟩
      show img.pix (img.width - 1 - (img.width - 1 - x)) y = img.pix x y
      have e : img.width - 1 - (img.width - 1 - x) = x := by omega
      rw [e]
  | vertical =>
      refine ⟨rfl, rfl, fun x y hx hy => ?_⟩
      show img.pix x (img.height - 1 - (img.height - 1 - y)) = img.pix x y
      have e : img.height - 1 - (img.height - 1 - y) = y := by omega
      rw [e]

/-- One axis of the clamp: for a nonnegative extent `s` and a nonnegative
size `W`, the clamped origin and extent are nonnegative and fit in `W`. -/
lemma clamp_axis (v s W : ℚ) (hs : 0 ≤ s) (hW : 0 ≤ W) :
    0 ≤ max 0 (min v (W - s)) ∧ 0 ≤ min s (W - max 0 (min v (W - s))) ∧
    max 0 (min v (W - s)) + min s (W - max 0 (min v (W - s))) ≤ W := by
  have hx2 : max 0 (min v (W - s)) ≤ W := by
    apply max_le hW
    calc min v (W - s) ≤ W - s := min_le_right _ _
      _ ≤ W := by linarith
  refine ⟨le_max_left 0 _, le_min hs (by linarith), ?_⟩
  have := min_le_right s (W - max 0 (min v (W - s)))
  linarith

/-- The clamp keeps any box inside a nonnegative image, whatever the
incoming box. -/
lemma clampBox_valid (nb : Box) (imgW imgH : ℚ) (hW : 0 ≤ imgW)
    (hH : 0 ≤ imgH) :
    0 ≤ (clampBox nb imgW imgH).x ∧ 0 ≤ (clampBox nb imgW imgH).y ∧
    0 ≤ (clampBox nb imgW imgH).width ∧ 0 ≤ (clampBox nb imgW imgH).height ∧
    (clampBox nb imgW imgH).x + (clampBox nb imgW imgH).width ≤ imgW ∧
    (clampBox nb imgW imgH).y + (clampBox nb imgW imgH).height ≤ imgH := by
  obtain ⟨bx, bY, bw, bh⟩ := nb
  simp only [clampBox]
  by_cases hw : bw < 0 <;> by_cases hh : bh < 0 <;>
    simp only [if_pos, if_neg, hw, hh, if_true, if_false, ite_true, ite_false] <;>
    [skip; skip; skip; skip] <;>
    first
    | (obtain ⟨a1, a2, a3⟩ := clamp_axis (bx + bw) (-bw) imgW (by linarith) hW
       obtain ⟨b1, b2, b3⟩ := clamp_axis (bY + bh) (-bh) imgH (by linarith) hH
       exact ⟨a1, b1, a2, b2, a3, b3⟩)
    | (obtain ⟨a1, a2, a3⟩ := clamp_axis (bx + bw) (-bw) imgW (by linarith) hW
       obtain ⟨b1, b2, b3⟩ := clamp_axis bY bh imgH (by linarith) hH
       exact ⟨a1, b1, a2, b2, a3, b3⟩)
    | (obtain ⟨a1, a2, a3⟩ := clamp_axis bx bw imgW (by linarith) hW
       obtain ⟨b1, b2, b3⟩ := clamp_axis (bY + bh) (-bh) imgH (by linarith) hH
       exact ⟨a1, b1, a2, b2, a3, b3⟩)
    | (obtain ⟨a1, a2, a3⟩ := clamp_axis bx bw imgW (by linarith) hW
       obtain ⟨b1, b2, b3⟩ := clamp_axis bY bh imgH (by linarith) hH
       exact ⟨a1, b1, a2, b2, a3, b3⟩)

/-- C4.  From a crop box inside the image, any move or resize by any
pointer displacement yields a box with nonnegative origin and size that
still lies inside the image. -/
theorem handleInteractionMove_in_bounds (kind : DragKind) (startBox : Box)
    (deltaX deltaY imgW imgH : ℚ)
    (hx : 0 ≤ startBox.x) (hy : 0 ≤ startBox.y)
    (hw : 0 ≤ startBox.width) (hh : 0 ≤ startBox.height)
    (hxw : startBox.x + startBox.width ≤ imgW)
    (hyh : startBox.y + startBox.height ≤ imgH) :
    0 ≤ (handleInteractionMove kind startBox deltaX deltaY imgW imgH).x ∧
    0 ≤ (handleInteractionMove kind startBox deltaX deltaY imgW imgH).y ∧
    0 ≤ (handleInteractionMove kind startBox deltaX deltaY imgW imgH).width ∧
    0 ≤ (handleInteractionMove kind startBox deltaX deltaY imgW imgH).height ∧
    (handleInteractionMove kind startBox deltaX deltaY imgW imgH).x +
      (handleInteractionMove kind startBox deltaX deltaY imgW imgH).width ≤ imgW ∧
    (handleInteractionMove kind startBox deltaX deltaY imgW imgH).y +
      (handleInteractionMove kind startBox deltaX deltaY imgW imgH).height ≤ imgH := by
  have hW : 0 ≤ imgW := by linarith
  have hH : 0 ≤ imgH := by linarith
  exact clampBox_valid (applyDrag kind startBox deltaX deltaY) imgW imgH hW hH

/-- Witness for C4: dragging a full-image crop box far to the bottom-right
keeps it inside the unit image. -/
theorem handleInteractionMove_in_bounds_witness :
    (0 : ℚ) ≤ 0 ∧
      0 ≤ (handleInteractionMove DragKind.move ⟨0, 0, 1, 1⟩ 5 5 1 1).x :=
  ⟨le_rfl,
    (handleInteractionMove_in_bounds DragKind.move ⟨0, 0, 1, 1⟩ 5 5 1 1
      le_rfl le_rfl (by norm_num) (by norm_num) (by norm_num) (by norm_num)).1⟩

/-- Counterexample to C6: when the underlying call throws, `enhancePrompt`
does not abort or re-raise — it returns the original prompt as a
successful result, a fallback value. -/
theorem enhancePrompt_fallback_counterexample :
    enhancePrompt "a cat" (Except.error ApiError.failure) =
      Except.ok "a cat" := rfl

/-- C6 (amended).  `enhancePrompt` recovers from a failed call by
returning the original prompt as a successful result, and returns the
trimmed response text on success; it never propagates the error. -/
theorem enhancePrompt_fallback (prompt : String) (api : Except ApiError String) :
    (∀ e : ApiError, api = Except.error e →
      enhancePrompt prompt api = Except.ok prompt) ∧
    (∀ text : String, api = Except.ok text →
      enhancePrompt prompt api = Except.ok text.trim) ∧
    ∀ e : ApiError, enhancePrompt prompt api ≠ Except.error e := by
  refine ⟨?_, ?_, ?_⟩
  · intro e he
    rw [he]
    rfl
  · intro text ht
    rw [ht]
    rfl
  · intro e
    cases api with
    | ok text => exact fun h => Except.noConfusion h
    | error e' => exact fun h => Except.noConfusion h

/-- Witness for the amended C6 at a concrete prompt and failure. -/
theorem enhancePrompt_fallback_witness :
    Except.error ApiError.failure = (Except.error ApiError.failure :
        Except ApiError String) ∧
      enhancePrompt "sunset" (Except.error ApiError.failure) =
        Except.ok "sunset" :=
  ⟨rfl,
    (enhancePrompt_fallback "sunset" (Except.error ApiError.failure)).1
      ApiError.failure rfl⟩

/-- Witness for C2: the 1×1 opaque image is its own tight crop. -/
theorem autoCrop_tight_bbox_witness :
    contentAt sampleImg none 20 0 0 ∧
      ((∀ x y, x < sampleImg.width → y < sampleImg.height →
        (isContent none 20 (sampleImg.pix x y) = true ↔
          specIsContent none 20 (sampleImg.pix x y))) ∧
      ∃ minX maxX minY maxY : ℕ,
        (∀ x y, contentAt sampleImg none 20 x y →
          minX ≤ x ∧ x ≤ maxX ∧ minY ≤ y ∧ y ≤ maxY) ∧
        (∃ y, contentAt sampleImg none 20 minX y) ∧
        (∃ y, contentAt sampleImg none 20 maxX y) ∧
        (∃ x, contentAt sampleImg none 20 x minY) ∧
        (∃ x, contentAt sampleImg none 20 x maxY) ∧
        ∃ out, autoCrop sampleImg none 20 = CropResult.cropped out ∧
          out.width = maxX - minX + 1 ∧
          out.height = maxY - minY + 1 ∧
          ∀ x y, out.pix x y = sampleImg.pix (minX + x) (minY + y)) :=
  ⟨⟨Nat.one_pos, Nat.one_pos, rfl⟩,
    autoCrop_tight_bbox sampleImg none 20 ⟨0, 0, Nat.one_pos, Nat.one_pos, rfl⟩⟩

/-- Witness for C10: a fully transparent image is returned unchanged. -/
theorem autoCrop_no_content_witness :
    isContent none 20 (blankImg.pix 0 0) = false ∧
      autoCrop blankImg none 20 = CropResult.original :=
  ⟨rfl, autoCrop_no_content blankImg none 20 (fun _ _ _ _ => rfl)⟩

/-- Witness for C5: a horizontal double flip of the 2×1 image restores
pixel (0, 0). -/
theorem flipImage_involutive_witness :
    (0 : ℕ) < 2 ∧
      (flipImage (flipImage flipSample FlipDir.horizontal)
        FlipDir.horizontal).pix 0 0 = flipSample.pix 0 0 :=
  ⟨by norm_num,
    (flipImage_involutive flipSample FlipDir.horizontal).2.2 0 0
      (by simp [flipSample]) (by simp [flipSample])⟩


/-- One `drawCell` step gives equal points on equal canvases for grids
that are equal cell for cell. -/
lemma drawCell_congr (grid grid' : Grid) (hg : GridEq grid grid')
    (padding cw ch : ℚ) (canvas canvas' : ℚ → ℚ → Color) (a : ℕ × ℕ)
    (hc : ∀ px py, canvas px py = canvas' px py) (px py : ℚ) :
    drawCell grid padding cw ch canvas a px py =
      drawCell grid' padding cw ch canvas' a px py := by
  rcases hg a.1 a.2 with ⟨h1, h2⟩ | ⟨i, i', h1, h2, hi⟩
  · rw [drawCell_none grid padding cw ch canvas a h1,
      drawCell_none grid' padding cw ch canvas' a h2]
    exact hc px py
  · rw [drawCell_some grid padding cw ch canvas a i h1,
      drawCell_some grid' padding cw ch canvas' a i' h2]
    simp only [drawImageAt]
    rw [hi.1, hi.2.1]
    split_ifs with hcond
    · exact hi.2.2 _ _
    · exact hc px py

/-- Folding the cell draws over equal grids and equal starting canvases
gives equal canvases, point for point. -/
lemma foldl_drawCell_congr (grid grid' : Grid) (hg : GridEq grid grid')
    (padding cw ch : ℚ) (l : List (ℕ × ℕ))
    (canvas canvas' : ℚ → ℚ → Color)
    (hc : ∀ px py, canvas px py = canvas' px py) :
    ∀ px py, l.foldl (drawCell grid padding cw ch) canvas px py =
      l.foldl (drawCell grid' padding cw ch) canvas' px py := by
  induction l generalizing canvas canvas' with
  | nil => exact hc
  | cons a t ih =>
      intro px py
      rw [List.foldl_cons, List.foldl_cons]
      exact ih (drawCell grid padding cw ch canvas a)
        (drawCell grid' padding cw ch canvas' a)
        (drawCell_congr grid grid' hg padding cw ch canvas canvas' a hc) px py

/-- The scan step only reads the pixel value, so it is the same on equal
bitmaps. -/
lemma scanStep_congr (cropColor : Option RGB) (tol : ℚ) (img img' : Img)
    (h : ImgEq img img') (s : ScanState) (p : ℕ × ℕ) :
    scanStep cropColor tol img s p = scanStep cropColor tol img' s p := by
  unfold scanStep
  rw [h.2.2 p.2 p.1]

/-- The whole scan is the same on equal bitmaps. -/
lemma foldl_scanStep_congr (cropColor : Option RGB) (tol : ℚ)
    (img img' : Img) (h : ImgEq img img') (l : List (ℕ × ℕ)) (s : ScanState) :
    l.foldl (scanStep cropColor tol img) s =
      l.foldl (scanStep cropColor tol img') s := by
  induction l generalizing s with
  | nil => rfl
  | cons a t ih =>
      rw [List.foldl_cons, List.foldl_cons,
        scanStep_congr cropColor tol img img' h s a, ih]

/-- `autoCrop` returns equal results on equal bitmaps. -/
lemma autoCrop_congr (img img' : Img) (cropColor : Option RGB) (tol : ℚ)
    (h : ImgEq img img') :
    CropResultEq (autoCrop img cropColor tol) (autoCrop img' cropColor tol) := by
  have hS : scanBBox cropColor tol img = scanBBox cropColor tol img' := by
    unfold scanBBox scanPairs
    rw [h.1, h.2.1, foldl_scanStep_congr cropColor tol img img' h]
  simp only [autoCrop]
  rw [hS]
  by_cases hmax : (scanBBox cropColor tol img').maxX = -1
  · rw [if_pos hmax, if_pos hmax]
    exact trivial
  · rw [if_neg hmax, if_neg hmax]
    exact ⟨rfl, rfl, fun x y => h.2.2 _ _⟩

/-- `letterboxImage` returns equal bitmaps on equal bitmaps. -/
lemma letterboxImage_congr (img img' : CImg) (R : ℚ) (bg : Color)
    (h : CImgEq img img') :
    CImgEq (letterboxImage img R bg) (letterboxImage img' R bg) := by
  have hcw : letterboxCanvasWidth img R = letterboxCanvasWidth img' R := by
    unfold letterboxCanvasWidth
    rw [h.1, h.2.1]
  have hch : letterboxCanvasHeight img R = letterboxCanvasHeight img' R := by
    unfold letterboxCanvasHeight
    rw [h.1, h.2.1]
  have hs : letterboxScale img R = letterboxScale img' R := by
    unfold letterboxScale
    rw [hcw, hch]
  have hox : letterboxOffsetX img R = letterboxOffsetX img' R := by
    unfold letterboxOffsetX
    rw [hcw, hs, h.1]
  have hoy : letterboxOffsetY img R = letterboxOffsetY img' R := by
    unfold letterboxOffsetY
    rw [hch, hs, h.2.1]
  refine ⟨?_, ?_, ?_⟩
  · show letterboxCanvasWidth img R * letterboxScale img R =
      letterboxCanvasWidth img' R * letterboxScale img' R
    rw [hcw, hs]
  · show letterboxCanvasHeight img R * letterboxScale img R =
      letterboxCanvasHeight img' R * letterboxScale img' R
    rw [hch, hs]
  · intro px py
    show drawImageAt
        (fillRect (fun _ _ => 0) 0 0
          (letterboxCanvasWidth img R * letterboxScale img R)
          (letterboxCanvasHeight img R * letterboxScale img R) bg)
        img (letterboxOffsetX img R) (letterboxOffsetY img R)
        (img.width * letterboxScale img R)
        (img.height * letterboxScale img R) px py =
      drawImageAt
        (fillRect (fun _ _ => 0) 0 0
          (letterboxCanvasWidth img' R * letterboxScale img' R)
          (letterboxCanvasHeight img' R * letterboxScale img' R) bg)
        img' (letterboxOffsetX img' R) (letterboxOffsetY img' R)
        (img'.width * letterboxScale img' R)
        (img'.height * letterboxScale img' R) px py
    simp only [drawImageAt, fillRect]
    rw [hcw, hch, hs, hox, hoy, h.1, h.2.1]
    split_ifs with hcond hbg
    · exact h.2.2 _ _
    · rfl
    · rfl

/-- `flipImage` returns equal bitmaps on equal bitmaps. -/
lemma flipImage_congr (img img' : Img) (d : FlipDir) (h : ImgEq img img') :
    ImgEq (flipImage img d) (flipImage img' d) := by
  cases d with
  | horizontal =>
      refine ⟨h.1, h.2.1, fun x y => ?_⟩
      show img.pix (img.width - 1 - x) y = img'.pix (img'.width - 1 - x) y
      rw [← h.1]
      exact h.2.2 _ _
  | vertical =>
      refine ⟨h.1, h.2.1, fun x y => ?_⟩
      show img.pix x (img.height - 1 - y) = img'.pix x (img'.height - 1 - y)
      rw [← h.2.1]
      exact h.2.2 _ _

/-- `manualCrop` returns equal bitmaps on equal bitmaps. -/
lemma manualCrop_congr (img img' : CImg) (cropBox : Box)
    (h : CImgEq img img') :
    CImgEq (manualCrop img cropBox) (manualCrop img' cropBox) := by
  refine ⟨rfl, rfl, fun px py => ?_⟩
  show (if 0 ≤ px ∧ px < cropBox.width ∧ 0 ≤ py ∧ py < cropBox.height then
      img.pix (cropBox.x + px) (cropBox.y + py)
    else 0) =
    (if 0 ≤ px ∧ px < cropBox.width ∧ 0 ≤ py ∧ py < cropBox.height then
      img'.pix (cropBox.x + px) (cropBox.y + py)
    else 0)
  split_ifs with hcond
  · exact h.2.2 _ _
  · rfl

/-- C7.  Each of the five transforms is a pure, deterministic function of
its arguments: invocations on equal arguments (images equal as bitmaps)
return equal results, and for `mixImages` — the one transform whose source
has behaviour not fixed by its arguments, namely the completion order of
the asynchronous cell loads — the rendered canvas is moreover identical
for every permutation of the cell draw order. -/
theorem imageProcessor_deterministic :
    (∀ (grid grid' : Grid) (cols rows : ℕ)
        (finalWidth finalHeight padding : ℚ) (bg : Color)
        (order : List (ℕ × ℕ)),
      GridEq grid grid' →
      0 < cols → 0 < rows → 0 ≤ padding →
      0 < finalWidth - padding * (cols + 1) →
      0 < finalHeight - padding * (rows + 1) →
      (cellPairs rows cols).Perm order →
      ∀ px py,
        mixRender grid' padding ((finalWidth - padding * (cols + 1)) / cols)
          ((finalHeight - padding * (rows + 1)) / rows) finalWidth finalHeight
          bg order px py =
        (mixImages grid cols rows finalWidth finalHeight padding bg).pix px py) ∧
    (∀ (img img' : Img) (cropColor : Option RGB) (tol : ℚ), ImgEq img img' →
      CropResultEq (autoCrop img cropColor tol) (autoCrop img' cropColor tol)) ∧
    (∀ (img img' : CImg) (R : ℚ) (bg : Color), CImgEq img img' →
      CImgEq (letterboxImage img R bg) (letterboxImage img' R bg)) ∧
    (∀ (img img' : Img) (d : FlipDir), ImgEq img img' →
      ImgEq (flipImage img d) (flipImage img' d)) ∧
    (∀ (img img' : CImg) (cropBox : Box), CImgEq img img' →
      CImgEq (manualCrop img cropBox) (manualCrop img' cropBox)) := by
  refine ⟨?_, ?_, ?_, ?_, ?_⟩
  · intro grid grid' cols rows finalWidth finalHeight padding bg order
      hg hcols hrows hp hW hH hperm px py
    have hcond : ¬ (finalWidth - padding * (cols + 1) ≤ 0 ∨
        finalHeight - padding * (rows + 1) ≤ 0) := by
      push_neg
      exact ⟨hW, hH⟩
    have hcolsQ : (0 : ℚ) < cols := by exact_mod_cast hcols
    have hrowsQ : (0 : ℚ) < rows := by exact_mod_cast hrows
    have hcw0 : 0 < (finalWidth - padding * (cols + 1)) / cols :=
      div_pos hW hcolsQ
    have hch0 : 0 < (finalHeight - padding * (rows + 1)) / rows :=
      div_pos hH hrowsQ
    have hmix : mixImages grid cols rows finalWidth finalHeight padding bg =
        ⟨finalWidth, finalHeight,
          mixRender grid padding ((finalWidth - padding * (cols + 1)) / cols)
            ((finalHeight - padding * (rows + 1)) / rows) finalWidth finalHeight
            bg (cellPairs rows cols)⟩ := by
      simp only [mixImages]
      rw [if_neg hcond]
    rw [hmix]
    have hord : mixRender grid' padding
        ((finalWidth - padding * (cols + 1)) / cols)
        ((finalHeight - padding * (rows + 1)) / rows) finalWidth finalHeight
        bg order px py =
        mixRender grid' padding ((finalWidth - padding * (cols + 1)) / cols)
          ((finalHeight - padding * (rows + 1)) / rows) finalWidth finalHeight
          bg (cellPairs rows cols) px py :=
      (foldl_drawCell_perm_invariant grid' padding _ _ hp hcw0 hch0
        (cellPairs rows cols) order hperm (nodup_cellPairs rows cols)
        _ px py).symm
    rw [hord]
    have hgsymm : GridEq grid' grid := by
      intro r c
      rcases hg r c with ⟨h1, h2⟩ | ⟨i, i', h1, h2, hi⟩
      · exact Or.inl ⟨h2, h1⟩
      · exact Or.inr ⟨i', i, h2, h1, hi.1.symm, hi.2.1.symm,
          fun x y => (hi.2.2 x y).symm⟩
    exact foldl_drawCell_congr grid' grid hgsymm padding _ _
      (cellPairs rows cols) _ _ (fun _ _ => rfl) px py
  · exact fun img img' cropColor tol h => autoCrop_congr img img' cropColor tol h
  · exact fun img img' R bg h => letterboxImage_congr img img' R bg h
  · exact fun img img' d h => flipImage_congr img img' d h
  · exact fun img img' cropBox h => manualCrop_congr img img' cropBox h

/-- Witness for C7: a 1×2 grid of empty cells rendered with the two cell
draws swapped, and the manual crop of a concrete 1×1 bitmap. -/
theorem imageProcessor_deterministic_witness :
    (cellPairs 1 2).Perm [(0, 1), (0, 0)] ∧
      (mixRender (fun _ _ => none) 0 ((2 - 0 * ((2 : ℕ) + 1)) / (2 : ℕ))
        ((1 - 0 * ((1 : ℕ) + 1)) / (1 : ℕ)) 2 1 5 [(0, 1), (0, 0)] 0 0 =
      (mixImages (fun _ _ => none) 2 1 2 1 0 5).pix 0 0) ∧
      CImgEq (manualCrop ⟨1, 1, fun _ _ => 3⟩ ⟨0, 0, 1, 1⟩)
        (manualCrop ⟨1, 1, fun _ _ => 3⟩ ⟨0, 0, 1, 1⟩) :=
  ⟨by decide,
    imageProcessor_deterministic.1 (fun _ _ => none) (fun _ _ => none)
      2 1 2 1 0 5 [(0, 1), (0, 0)] (fun _ _ => Or.inl ⟨rfl, rfl⟩)
      (by norm_num) Nat.one_pos le_rfl (by norm_num) (by norm_num)
      (by decide) 0 0,
    imageProcessor_deterministic.2.2.2.2 ⟨1, 1, fun _ _ => 3⟩
      ⟨1, 1, fun _ _ => 3⟩ ⟨0, 0, 1, 1⟩ ⟨rfl, rfl, fun _ _ => rfl⟩⟩
